import Mathlib

/-!
Verification of the fontify font-detection / font-bundling pipeline.

The TypeScript sources are shallowly embedded over `List Char`:
`String.prototype.split`, `trim`, `replace`, regex scans and the service
methods become executable Lean functions, and each spec claim is settled
against those definitions.  The repository file `productionBundler.ts`
contains two versions of `ProductionBundlerService`; they are embedded in
namespaces `Bundler1` (the first version in the file) and `Bundler2`
(the second), matching the line ranges the claims cite.
-/

namespace Fontify

/-- Characters of a string literal, the carrier for embedded JS strings. -/
def chars (s : String) : List Char := s.data

/-- JS whitespace class `\s`, restricted to the ASCII range that the
sources exercise: space, tab, LF, CR, VT, FF. -/
def wsChar (c : Char) : Bool :=
  c = ' ' || c = '\t' || c = '\n' || c = '\r' || c = '\x0b' || c = '\x0c'

/-- JS `String.prototype.toLowerCase` on ASCII text. -/
def toLowerList (l : List Char) : List Char := l.map Char.toLower

/-- JS `String.prototype.trim`: drop whitespace from both ends. -/
def trimChars (l : List Char) : List Char :=
  ((l.dropWhile wsChar).reverse.dropWhile wsChar).reverse

/-- A single or double quote character, the class `['"]` used by
`parseFontFamily`'s `replace(/['"]/g, '')`. -/
def isQuoteChar (c : Char) : Bool := c = '\'' || c = '"'

/-- JS global regex replace of `X+` by `rep` for a character class `X`
given by `p`: every maximal run of `p`-characters becomes the single
character `rep`.  Used for the hyphen-collapsing replace in
`sanitizeFontName` and the whitespace-to-plus replace in the CDN URL. -/
def collapseRuns (p : Char → Bool) (rep : Char) : List Char → List Char
  | [] => []
  | [c] => [if p c then rep else c]
  | a :: b :: rest =>
    if p a && p b then collapseRuns p rep (b :: rest)
    else (if p a then rep else a) :: collapseRuns p rep (b :: rest)

/-- The fixed denylist in `FontDetectionService.isSystemFont`
(fontDetection.ts lines 150-160). -/
def systemFonts : List (List Char) :=
  [chars "serif", chars "sans-serif", chars "monospace",
   chars "arial", chars "helvetica", chars "times"]

/-- `FontDetectionService.isSystemFont` (fontDetection.ts lines 150-160):
membership of the lower-cased token in the fixed denylist. -/
def isSystemFont (font : List Char) : Bool :=
  systemFonts.contains (toLowerList font)

/-- `FontDetectionService.parseFontFamily` (fontDetection.ts lines 142-148):
split on commas, trim each token and delete every quote character in it
(`replace(/['"]/g, '')`), drop denylisted tokens, keep the first 3. -/
def parseFontFamily (fontFamily : List Char) : List (List Char) :=
  (((fontFamily.splitOn ',').map
      (fun font => (trimChars font).filter (fun c => !(isQuoteChar c)))).filter
    (fun font => !(isSystemFont font))).take 3

/-- Modelled from the spec wording of claim C1: strip only the quote
characters that surround a trimmed token (leading and trailing runs),
leaving interior quotes in place. -/
def stripSurroundingQuotes (l : List Char) : List Char :=
  ((l.dropWhile isQuoteChar).reverse.dropWhile isQuoteChar).reverse

/-- Modelled from the spec wording of claim C1 (`spec.md` section 4.1):
split on commas, trim each token and strip surrounding quote characters,
drop denylisted tokens, keep at most the first 3. -/
def parseFontFamilySpec (fontFamily : List Char) : List (List Char) :=
  (((fontFamily.splitOn ',').map
      (fun font => stripSurroundingQuotes (trimChars font))).filter
    (fun font => !(isSystemFont font))).take 3

/-- The amended reading of claim C1: quote characters are deleted wherever
they occur in a trimmed token, not only at its ends. -/
def parseFontFamilyAmended (fontFamily : List Char) : List (List Char) :=
  (((fontFamily.splitOn ',').map
      (fun font => (trimChars font).filter (fun c => !(isQuoteChar c)))).filter
    (fun font => !(isSystemFont font))).take 3

example : parseFontFamily (chars "'Inter', sans-serif") = [chars "Inter"] := by decide

example : parseFontFamily (chars "A, B, C, D, E") =
    [chars "A", chars "B", chars "C"] := by decide

example : parseFontFamily (chars "a'b") = [chars "ab"] := by decide

example : parseFontFamilySpec (chars "a'b") = [chars "a'b"] := by decide

/-! The CSS regex scan of `detectFromFiles` (fontDetection.ts lines 59-76).
The source matches the file content against the global case-insensitive
regex for a font-family declaration (literal `font-family`, optional
whitespace, a colon, optional whitespace, then one or more characters from
a stop-excluding class, greedy), and strips the `font-family...:` prefix
off every match before parsing it as a font stack.  The net value handed
to `parseFontFamily` is the matched body with its leading whitespace
removed, because the prefix-stripping replace consumes the colon's
trailing whitespace greedily. -/

/-- Case-insensitive match of the literal `lit` (given lower-case) at the
head of `cs`; returns the remaining input on success. -/
def ciMatchLit : List Char → List Char → Option (List Char)
  | [], rest => some rest
  | _ :: _, [] => none
  | p :: ps, c :: cs => if Char.toLower c = p then ciMatchLit ps cs else none

/-- The literal the CSS declaration regex starts with. -/
def fontFamilyLit : List Char := chars "font-family"

/-- One attempted regex match at the head of `cs`.  `stop` is the character
class excluded from the captured body (`;` alone in the source, `;` or a
closing brace in the spec's pattern).  On success: the value handed to the
font-stack parser (body without leading whitespace) and the input that
remains after the full match. -/
def matchFontFamilyAt (stop : Char → Bool) (cs : List Char) :
    Option (List Char × List Char) :=
  match ciMatchLit fontFamilyLit cs with
  | none => none
  | some r0 =>
    match (r0.dropWhile wsChar) with
    | [] => none
    | c :: r2 =>
      if c = ':' then
        match r2.takeWhile (fun d => !(stop d)) with
        | [] => none
        | body@(_ :: _) => some (body.dropWhile wsChar, r2.drop body.length)
      else none

/-- The global regex scan: try a match at every position, and continue
after the end of each successful match, exactly as a JS global regex does.
The fuel argument starts at the input length; every step consumes at least
one character, so the fuel never runs out before the input does. -/
def scanFontFamilyAux (stop : Char → Bool) : Nat → List Char → List (List Char)
  | 0, _ => []
  | _ + 1, [] => []
  | fuel + 1, c :: cs =>
    match matchFontFamilyAt stop (c :: cs) with
    | some (v, rest) => v :: scanFontFamilyAux stop fuel rest
    | none => scanFontFamilyAux stop fuel cs

/-- All values produced by the global font-family regex over `content`. -/
def scanFontFamily (stop : Char → Bool) (content : List Char) : List (List Char) :=
  scanFontFamilyAux stop content.length content

/-- The stop class of the source's regex (fontDetection.ts line 60): the
captured body is `[^;]+`, stopping only at a semicolon. -/
def stopCode (c : Char) : Bool := c = ';'

/-- The stop class of the pattern the spec describes for claim C2: the
captured body stops at a semicolon or a closing brace. -/
def stopSpec (c : Char) : Bool := c = ';' || c = '}'

/-- Per-file CSS value extraction as the source performs it
(fontDetection.ts lines 59-66): the raw content is scanned directly, with
no prior normalization. -/
def detectCssValues (content : List Char) : List (List Char) :=
  scanFontFamily stopCode content

/-- Whether a character is an ASCII control byte. -/
def isControlByte (c : Char) : Bool := c.toNat < 32 || c.toNat = 127

/-- Modelled from the spec wording of claim C2: strip NUL and the other
control bytes that are not whitespace, then collapse every whitespace run
to a single space. -/
def normalizeSpec (content : List Char) : List Char :=
  collapseRuns wsChar ' '
    (content.filter (fun c => wsChar c || !(isControlByte c)))

/-- Modelled from the spec wording of claim C2: normalize the file text,
then apply the global pattern whose captured body stops at `;` or at a
closing brace. -/
def detectCssValuesSpec (content : List Char) : List (List Char) :=
  scanFontFamily stopSpec (normalizeSpec content)

/-- The `source` discriminant of `DetectedFont` (fontDetection.ts line 6). -/
inductive FontSource where
  | vscodeSettings
  | css
  | tailwind
  | packageJson
deriving DecidableEq, Repr

/-- `DetectedFont` (fontDetection.ts lines 4-9). -/
structure DetectedFont where
  name : List Char
  source : FontSource
  filePath : Option (List Char) := none
  isInstalled : Option Bool := none
deriving DecidableEq, Repr

/-- The detections one scanned CSS file contributes (fontDetection.ts
lines 62-75): every regex value is parsed as a font stack and each parsed
name becomes one `css`-sourced reference carrying the file's path. -/
def detectFromCssContent (path : List Char) (content : List Char) :
    List DetectedFont :=
  ((detectCssValues content).map (fun v =>
    (parseFontFamily v).map (fun n =>
      ({ name := n, source := .css, filePath := some path } : DetectedFont)))).flatten

/-- The CSS portion of `detectFromFiles` (fontDetection.ts lines 48-76):
only the first 20 matched files are read and scanned.  `read` stands for
the filesystem read of a matched path. -/
def detectFromCssFiles (read : List Char → List Char)
    (cssFiles : List (List Char)) : List DetectedFont :=
  ((cssFiles.take 20).map (fun file =>
    detectFromCssContent file (read file))).flatten

/-- Lower-cased name, the deduplication key (fontDetection.ts line 165). -/
def dedupKey (font : DetectedFont) : List Char := toLowerList font.name

/-- Recursion for `deduplicate`, carrying the set of keys already seen:
a font whose key was seen is dropped, otherwise it is kept and its key
recorded.  This mirrors the source's insertion-ordered `Map`, whose
`values()` are exactly the first occurrence of each key in input order. -/
def dedupAux (seen : List (List Char)) : List DetectedFont → List DetectedFont
  | [] => []
  | f :: fs =>
    if dedupKey f ∈ seen then dedupAux seen fs
    else f :: dedupAux (dedupKey f :: seen) fs

/-- `FontDetectionService.deduplicate` (fontDetection.ts lines 162-171). -/
def deduplicate (fonts : List DetectedFont) : List DetectedFont :=
  dedupAux [] fonts

example : detectCssValues (chars "a\x7bfont-family:X\x7d b") =
    [chars "X\x7d b"] := by decide

example : detectCssValuesSpec (chars "a\x7bfont-family:X\x7d b") =
    [chars "X"] := by decide

example : detectCssValues
    (chars "p\x7bfont-family: Foo;\x7d q\x7bFONT-FAMILY: Bar;\x7d") =
    [chars "Foo", chars "Bar"] := by decide

example : detectCssValues (chars "font-family: A\x00B;") =
    [chars "A\x00B"] := by decide

example : detectCssValuesSpec (chars "font-family: A\x00B;") =
    [chars "AB"] := by decide

/-! The Google Fonts catalog client (googleFontsService.ts).  Network
calls are oracles: a fetch outcome, a search outcome or a per-descriptor
download outcome is passed in as data, and the method bodies around them
are embedded as pure functions. -/

/-- `GoogleFont` (googleFontsService.ts lines 6-11); the `files` record is
an association list from variant to URL. -/
structure GoogleFont where
  family : List Char
  variants : List (List Char)
  subsets : List (List Char)
  files : List (List Char × List Char)
deriving DecidableEq, Repr

/-- The font-file format discriminant (googleFontsService.ts line 17). -/
inductive FontFormat where
  | woff2
  | woff
  | ttf
deriving DecidableEq, Repr

/-- `FontFile` (googleFontsService.ts lines 13-18). -/
structure FontFile where
  family : List Char
  variant : List Char
  url : List Char
  format : FontFormat
deriving DecidableEq, Repr

/-- Outcome of the catalog-listing fetch in `getAllFonts`: a parsed
response whose `items` field may be missing, or a thrown network error. -/
inductive FetchListResult where
  | success (items : Option (List GoogleFont))
  | failure
deriving DecidableEq, Repr

/-- `GoogleFontsService.getAllFonts` (googleFontsService.ts lines 39-56)
as a state transformer on the `fontsCache` field: the returned list and
the cache value after the call.  A populated cache is returned as is; a
successful fetch stores `items` (or `[]` when absent) in the cache; a
failed fetch returns `[]` and leaves the cache unpopulated. -/
def getAllFonts (cache : Option (List GoogleFont)) (fetch : FetchListResult) :
    List GoogleFont × Option (List GoogleFont) :=
  match cache with
  | some fonts => (fonts, some fonts)
  | none =>
    match fetch with
    | .success items => ((items.getD []), some (items.getD []))
    | .failure => ([], none)

/-- The name normalization in `searchFont` (googleFontsService.ts line 30):
lower-case, then remove every whitespace character. -/
def normalizeQuery (name : List Char) : List Char :=
  (toLowerList name).filter (fun c => !(wsChar c))

/-- `GoogleFontsService.searchFont` (googleFontsService.ts lines 28-37):
the first catalog entry whose normalized family equals the normalized
query, or `none`; paired with the cache state after the call. -/
def searchFont (fontName : List Char) (cache : Option (List GoogleFont))
    (fetch : FetchListResult) : Option GoogleFont × Option (List GoogleFont) :=
  let r := getAllFonts cache fetch
  (r.1.find? (fun font => normalizeQuery font.family == normalizeQuery fontName), r.2)

/-- The typed result of `installFont` (googleFontsService.ts line 153). -/
structure InstallOutcome where
  success : Bool
  installedFiles : List (List Char)
  error : Option (List Char)
deriving DecidableEq, Repr

/-- The not-found error string of `installFont` (googleFontsService.ts
line 161). -/
def installNotFoundMsg (fontFamily : List Char) : List Char :=
  chars "Font \"" ++ fontFamily ++ chars "\" not found on Google Fonts"

/-- The no-files error string of `installFont` (googleFontsService.ts
line 171). -/
def installNoFilesMsg (fontFamily : List Char) : List Char :=
  chars "No font files found for \"" ++ fontFamily ++ chars "\""

/-- The all-downloads-failed error string of `installFont`
(googleFontsService.ts line 192). -/
def installAllFailedMsg : List Char :=
  chars "Failed to download any font files"

/-- `GoogleFontsService.installFont` (googleFontsService.ts lines 150-212).
`searchResult` is the outcome of the `searchFont` call, `fontFiles` the
outcome of the `getFontFiles` call, and `download` the per-descriptor
outcome of `downloadFont` (`none` for a failed download).  Every branch
returns a structured result; the body's try/catch never lets an exception
escape. -/
def installFont (fontFamily : List Char) (searchResult : Option GoogleFont)
    (fontFiles : List FontFile) (download : FontFile → Option (List Char)) :
    InstallOutcome :=
  match searchResult with
  | none => ⟨false, [], some (installNotFoundMsg fontFamily)⟩
  | some _ =>
    if fontFiles.length = 0 then
      ⟨false, [], some (installNoFilesMsg fontFamily)⟩
    else
      let installedFiles := fontFiles.filterMap download
      if installedFiles.length = 0 then
        ⟨false, [], some installAllFailedMsg⟩
      else
        ⟨true, installedFiles, none⟩

/-! The installer's variant-selection policy (fontInstaller.ts). -/

/-- The fixed preference order of `getCommonVariants` (fontInstaller.ts
line 106). -/
def preferredVariants : List (List Char) :=
  [chars "regular", chars "400", chars "500", chars "600", chars "700",
   chars "bold"]

/-- `FontInstallerService.getCommonVariants` (fontInstaller.ts lines
104-115): keep a preferred variant when the catalog lists it, or when it
is `bold` and the catalog lists `700`; cap at 3. -/
def getCommonVariants (availableVariants : List (List Char)) : List (List Char) :=
  (preferredVariants.filter (fun variant =>
    availableVariants.contains variant ||
    availableVariants.contains
      (if variant = chars "bold" then chars "700" else variant))).take 3

/-- Modelled from the spec wording of claim C5: the preferred variants in
their fixed order, intersected with the available set, capped at 3. -/
def getCommonVariantsSpec (availableVariants : List (List Char)) :
    List (List Char) :=
  (preferredVariants.filter (fun variant =>
    availableVariants.contains variant)).take 3

/-- The amended reading of claim C5's filter: a preferred variant is kept
when it is available, or when it is `bold` and `700` is available. -/
def commonVariantKept (availableVariants : List (List Char))
    (variant : List Char) : Bool :=
  availableVariants.contains variant ||
  (variant = chars "bold" && availableVariants.contains (chars "700"))

example : getCommonVariants [chars "700"] = [chars "700", chars "bold"] := by decide

example : getCommonVariantsSpec [chars "700"] = [chars "700"] := by decide

example : getCommonVariants
    [chars "regular", chars "500", chars "600", chars "700"] =
    [chars "regular", chars "500", chars "600"] := by decide

/-! Shared helpers of the production bundler embeddings. -/

/-- The hosting strategy (productionBundler.ts line 8 and line 401). -/
inductive Strategy where
  | selfHosted
  | cdn
  | both
deriving DecidableEq, Repr

/-- The framework choice (productionBundler.ts line 10 and line 404). -/
inductive Framework where
  | vanilla
  | nextjs
  | react
  | vue
  | custom
deriving DecidableEq, Repr

/-- Node `path.join` of two segments, as used on the bundler's paths. -/
def pathJoin (a b : List Char) : List Char := a ++ chars "/" ++ b

/-- Node `path.basename`: the segment after the last slash. -/
def pathBasename (p : List Char) : List Char :=
  (p.reverse.takeWhile (fun c => !(c = '/'))).reverse

/-- The variant-to-weight conversion both bundlers apply: `regular`
becomes `400`, any other variant is kept as written. -/
def weightOf (variant : List Char) : List Char :=
  if variant = chars "regular" then chars "400" else variant

/-- The file extension of a `FontFile` format. -/
def formatExt : FontFormat → List Char
  | .woff2 => chars "woff2"
  | .woff => chars "woff"
  | .ttf => chars "ttf"

/-- The substring `hay` contains the substring `pat` contiguously. -/
def containsSeq (hay pat : List Char) : Prop :=
  ∃ pre post, hay = pre ++ (pat ++ post)

namespace Bundler1

/-! The first `ProductionBundlerService` in productionBundler.ts
(lines 19-377). -/

/-- `BundleOptions` of the first service (productionBundler.ts lines
7-11). -/
structure BundleOptions where
  strategy : Strategy
  outputDir : List Char
  framework : Framework
deriving DecidableEq, Repr

/-- The inline sanitization in this service's `bundleFont`
(productionBundler.ts line 244): every non-alphanumeric character becomes
a hyphen, with no collapsing of runs. -/
def sanitizeName (fontFamily : List Char) : List Char :=
  fontFamily.map (fun c => if c.isAlphanum then c else '-')

/-- One `@font-face` rule of this service's `bundleFont`
(productionBundler.ts lines 266-271). -/
def fontFaceBlock (fontFamily sanitizedName fileName weight : List Char) :
    List Char :=
  chars "@font-face \x7b\n  font-family: '" ++ fontFamily ++
  chars "';\n  src: url('./" ++ sanitizedName ++ chars "/" ++ fileName ++
  chars "') format('woff2');\n  font-weight: " ++ weight ++
  chars ";\n  font-display: swap;\n\x7d\n\n"

/-- The CDN `@import` block of this service's `bundleFont`
(productionBundler.ts lines 276-281). -/
def cdnImportBlock (fontFamily : List Char) (variants : List (List Char)) :
    List Char :=
  chars "/* CDN Option */\n@import url('https://fonts.googleapis.com/css2?family=" ++
  collapseRuns wsChar '+' fontFamily ++ chars ":wght@" ++
  List.intercalate (chars ";") variants ++ chars "&display=swap');\n\n"

/-- The utility-class rule appended by this service's `bundleFont`
(productionBundler.ts line 285). -/
def fontClassRule (fontFamily slug : List Char) : List Char :=
  chars ".font-" ++ slug ++ chars " \x7b font-family: '" ++ fontFamily ++
  chars "', sans-serif; \x7d\n"

/-- The custom-property rule appended by this service's `bundleFont`
(productionBundler.ts line 286). -/
def rootVarRule (fontFamily slug : List Char) : List Char :=
  chars ":root \x7b --font-" ++ slug ++ chars ": '" ++ fontFamily ++
  chars "', sans-serif; \x7d\n"

/-- The CSS content this service's `bundleFont` accumulates
(productionBundler.ts lines 248-286).  `downloads` pairs every descriptor
returned by `getFontFiles` with its `downloadFont` outcome, and `base`
stands for `path.basename` on a downloaded path.  An `@font-face` rule is
emitted per successful download when the strategy includes self-hosting,
the CDN `@import` when it includes the CDN, and the utility class and
custom property always. -/
def cssContent (fontFamily : List Char) (variants : List (List Char))
    (options : BundleOptions) (downloads : List (FontFile × Option (List Char)))
    (base : List Char → List Char) : List Char :=
  chars "/* " ++ fontFamily ++ chars " Font Family */\n\n" ++
  ((if options.strategy = .selfHosted || options.strategy = .both then
    ((downloads.filterMap (fun d => d.2.map (fun p => (d.1, p)))).map
      (fun fp => fontFaceBlock fontFamily (sanitizeName fontFamily)
        (base fp.2) (weightOf fp.1.variant))).flatten
  else []) ++
  ((if options.strategy = .cdn || options.strategy = .both then
    cdnImportBlock fontFamily variants
  else []) ++
  (chars "/* Utility Classes */\n" ++
  (fontClassRule fontFamily (toLowerList (sanitizeName fontFamily)) ++
  rootVarRule fontFamily (toLowerList (sanitizeName fontFamily))))))

/-- This service's `generateNextJSCode` module text (productionBundler.ts
lines 298-318). -/
def nextJSCode (fontFamily fontDir : List Char) : List Char :=
  chars "import localFont from 'next/font/local';\n\nexport const " ++
  toLowerList (sanitizeName fontFamily) ++
  chars " = localFont(\x7b\n  src: './" ++ pathBasename fontDir ++
  chars "/*.woff2',\n  display: 'swap',\n  variable: '--font-" ++
  toLowerList (sanitizeName fontFamily) ++
  chars "'\n\x7d);\n\n// Usage: className=\x7b`$\x7b" ++
  toLowerList (sanitizeName fontFamily) ++
  chars ".variable\x7d font-" ++ toLowerList (sanitizeName fontFamily) ++
  chars "`\x7d\n"

/-- The effects of one run of this service's `bundleFont`
(productionBundler.ts lines 238-296): the CSS file path and content, the
file writes performed, and the returned relative path. -/
structure BundleRun where
  cssFile : List Char
  cssContent : List Char
  written : List (List Char × List Char)
  returned : List Char
deriving DecidableEq, Repr

/-- This service's `bundleFont` (productionBundler.ts lines 238-296).
The CSS file is written unconditionally; the Next.js module is written
additionally when the framework is `nextjs`. -/
def bundleFont (fontFamily : List Char) (variants : List (List Char))
    (options : BundleOptions) (outputPath : List Char)
    (downloads : List (FontFile × Option (List Char)))
    (base : List Char → List Char) : BundleRun :=
  let sanitizedName := sanitizeName fontFamily
  let fontDir := pathJoin outputPath sanitizedName
  let content := cssContent fontFamily variants options downloads base
  let cssFile := pathJoin fontDir (sanitizedName ++ chars ".css")
  { cssFile := cssFile
    cssContent := content
    written := [(cssFile, content)] ++
      (if options.framework = .nextjs then
        [(pathJoin fontDir (toLowerList sanitizedName ++ chars ".ts"),
          nextJSCode fontFamily fontDir)]
      else [])
    returned := pathJoin sanitizedName (sanitizedName ++ chars ".css") }

end Bundler1

namespace Bundler2

/-! The second `ProductionBundlerService` in productionBundler.ts
(lines 408-747). -/

/-- `BundleOptions` of the second service (productionBundler.ts lines
400-406). -/
structure BundleOptions where
  strategy : Strategy
  variants : List (List Char)
  outputDir : List Char
  framework : Framework
  includePreload : Bool
deriving DecidableEq, Repr

/-- `ProductionBundle.files` (productionBundler.ts lines 387-391). -/
structure BundleFiles where
  cssFile : Option (List Char) := none
  fontFiles : List (List Char) := []
  licenseFile : Option (List Char) := none
deriving DecidableEq, Repr

/-- `ProductionBundle.code` (productionBundler.ts lines 392-397). -/
structure BundleCode where
  htmlLink : Option (List Char) := none
  cssImport : Option (List Char) := none
  cssFontFace : Option (List Char) := none
  nextjsFont : Option (List Char) := none
deriving DecidableEq, Repr

/-- `ProductionBundle` (productionBundler.ts lines 384-398). -/
structure ProductionBundle where
  fontFamily : List Char
  strategy : Strategy
  files : BundleFiles
  code : BundleCode
deriving DecidableEq, Repr

/-- `ProductionBundlerService.sanitizeFontName` (productionBundler.ts
lines 740-742): every non-alphanumeric character becomes a hyphen, then
runs of hyphens collapse to one. -/
def sanitizeFontName (fontName : List Char) : List Char :=
  collapseRuns (fun c => c = '-') '-'
    (fontName.map (fun c => if c.isAlphanum then c else '-'))

/-- One `@font-face` rule of `generateFontFaceCSS` (productionBundler.ts
lines 570-576). -/
def fontFaceBlock (fontFamily fontPath format weight : List Char) : List Char :=
  chars "@font-face \x7b\n  font-family: '" ++ fontFamily ++
  chars "';\n  src: url('" ++ fontPath ++ chars "') format('" ++ format ++
  chars "');\n  font-weight: " ++ weight ++
  chars ";\n  font-style: normal;\n  font-display: swap;\n\x7d\n\n"

/-- The utility-class rule of `generateFontFaceCSS` (productionBundler.ts
lines 581-583). -/
def fontClassRule (fontFamily slug : List Char) : List Char :=
  chars ".font-" ++ slug ++ chars " \x7b\n  font-family: '" ++ fontFamily ++
  chars "', sans-serif;\n\x7d\n\n"

/-- The custom-property rule of `generateFontFaceCSS` (productionBundler.ts
lines 586-588). -/
def rootVarRule (fontFamily slug : List Char) : List Char :=
  chars ":root \x7b\n  --font-" ++ slug ++ chars ": '" ++ fontFamily ++
  chars "', sans-serif;\n\x7d\n"

/-- `ProductionBundlerService.generateFontFaceCSS` (productionBundler.ts
lines 553-591).  One `@font-face` rule per descriptor in `fontFiles`
(downloaded or not), then the utility class and the custom property.  The
source's `format` ternary maps `woff2` to `woff2` and keeps every other
format, which is the identity on the extension. -/
def generateFontFaceCSS (fontFamily : List Char) (fontFiles : List FontFile)
    (options : BundleOptions) : List Char :=
  chars "/* " ++ fontFamily ++ chars " Font Family */\n\n" ++
  ((fontFiles.map (fun fontFile =>
    fontFaceBlock fontFamily
      (chars "/" ++ options.outputDir ++ chars "/" ++
        sanitizeFontName fontFamily ++ chars "/" ++
        (sanitizeFontName fontFamily ++ chars "-" ++ fontFile.variant ++
          chars "." ++ formatExt fontFile.format))
      (formatExt fontFile.format) (weightOf fontFile.variant))).flatten ++
  (chars "/* Utility Classes */\n" ++
  (fontClassRule fontFamily (toLowerList (sanitizeFontName fontFamily)) ++
  rootVarRule fontFamily (toLowerList (sanitizeFontName fontFamily)))))

/-- `ProductionBundlerService.generateSelfHostedBundle` (productionBundler.ts
lines 484-521): appends the relative path of every successful download to
`files.fontFiles`, writes the `@font-face` CSS and records its relative
path and content.  `downloads` pairs every descriptor from `getFontFiles`
with its `downloadFont` outcome and `rel` stands for
`path.relative(workspaceRoot, -)`. -/
def generateSelfHostedBundle (fontFamily : List Char) (options : BundleOptions)
    (fontDir : List Char) (downloads : List (FontFile × Option (List Char)))
    (rel : List Char → List Char) (bundle : ProductionBundle) :
    ProductionBundle :=
  let cssFile := pathJoin fontDir (sanitizeFontName fontFamily ++ chars ".css")
  { bundle with
    files := { bundle.files with
      fontFiles := bundle.files.fontFiles ++
        downloads.filterMap (fun d => d.2.map rel)
      cssFile := some (rel cssFile) }
    code := { bundle.code with
      cssFontFace :=
        some (generateFontFaceCSS fontFamily (downloads.map Prod.fst) options) } }

/-- `ProductionBundlerService.generateCDNBundle` (productionBundler.ts
lines 523-538). -/
def generateCDNBundle (fontFamily : List Char) (options : BundleOptions)
    (bundle : ProductionBundle) : ProductionBundle :=
  let googleFontsUrl :=
    chars "https://fonts.googleapis.com/css2?family=" ++
    collapseRuns wsChar '+' fontFamily ++ chars ":wght@" ++
    List.intercalate (chars ";") (options.variants.map weightOf) ++
    chars "&display=swap"
  { bundle with
    code := { bundle.code with
      htmlLink := some (chars "<link href=\"" ++ googleFontsUrl ++
        chars "\" rel=\"stylesheet\">")
      cssImport := some (chars "@import url('" ++ googleFontsUrl ++
        chars "');") } }

/-- A word character of the JS `\w` class, for the weight-extraction
regex in `generateNextJSCode`. -/
def wordChar (c : Char) : Bool := c.isAlphanum || c = '_'

/-- One attempted match of the weight-extraction regex (a hyphen, then
one or more word characters, then a dot) at the head of the input;
returns the captured word run. -/
def matchWeightAt (cs : List Char) : Option (List Char) :=
  match cs with
  | [] => none
  | c :: rest =>
    if c = '-' then
      match rest.takeWhile wordChar with
      | [] => none
      | run@(_ :: _) =>
        match rest.drop run.length with
        | '.' :: _ => some run
        | _ => none
    else none

/-- First match of the weight-extraction regex anywhere in the input,
with fuel bounded by the input length. -/
def findWeightAux : Nat → List Char → Option (List Char)
  | 0, _ => none
  | _ + 1, [] => none
  | fuel + 1, c :: cs =>
    match matchWeightAt (c :: cs) with
    | some run => some run
    | none => findWeightAux fuel cs

/-- The weight `generateNextJSCode` derives from a font file name
(productionBundler.ts lines 604-605). -/
def weightFromFileName (fileName : List Char) : List Char :=
  match findWeightAux fileName.length fileName with
  | some run => if run = chars "regular" then chars "400" else run
  | none => chars "400"

/-- One `src` entry of the second service's `generateNextJSCode`
(productionBundler.ts lines 607-611). -/
def nextJSSrcEntry (filePath : List Char) : List Char :=
  chars "    \x7b\n      path: './" ++ filePath ++
  chars "',\n      weight: '" ++ weightFromFileName (pathBasename filePath) ++
  chars "',\n      style: 'normal',\n    \x7d,\n"

/-- The second service's `generateNextJSCode` module text
(productionBundler.ts lines 593-625). -/
def nextJSCode (fontFamily : List Char) (fontFiles : List (List Char)) :
    List Char :=
  chars "import localFont from 'next/font/local';\n\nexport const " ++
  toLowerList (sanitizeFontName fontFamily) ++
  chars " = localFont(\x7b\n  src: [\n" ++
  ((fontFiles.map nextJSSrcEntry).flatten ++
  (chars "  ],\n  display: 'swap',\n  variable: '--font-" ++
  toLowerList (sanitizeFontName fontFamily) ++
  (chars "'\n\x7d);\n\n// Usage in your components:\n// <div className=\x7b`$\x7b" ++
  (toLowerList (sanitizeFontName fontFamily) ++
  (chars ".variable\x7d font-" ++
  (toLowerList (sanitizeFontName fontFamily) ++
  chars "`\x7d>\n//   Your content here\n// </div>\n"))))))

/-- `ProductionBundlerService.generateFrameworkCode` (productionBundler.ts
lines 540-551): only for `nextjs`, and only when at least one font file
was downloaded. -/
def generateFrameworkCode (fontFamily : List Char) (options : BundleOptions)
    (bundle : ProductionBundle) : ProductionBundle :=
  if options.framework = .nextjs && decide (0 < bundle.files.fontFiles.length) then
    { bundle with
      code := { bundle.code with
        nextjsFont := some (nextJSCode fontFamily bundle.files.fontFiles) } }
  else bundle

/-- `ProductionBundlerService.createLicenseFile` (productionBundler.ts
lines 627-653).  `license` is the `getFontLicense` outcome and `date` the
timestamp string; when a license is reported, the notice file is written
and its relative path recorded. -/
def createLicenseFile (fontFamily : List Char) (fontDir : List Char)
    (license : Option (List Char)) (date : List Char)
    (rel : List Char → List Char) (bundle : ProductionBundle) :
    ProductionBundle :=
  match license with
  | none => bundle
  | some _ =>
    { bundle with
      files := { bundle.files with
        licenseFile := some (rel (pathJoin fontDir (chars "LICENSE.txt"))) } }

/-- The second service's `bundleFont` (productionBundler.ts lines
415-454): the self-hosted step runs only when the strategy includes
self-hosting, the CDN step only when it includes the CDN; framework code
and the license file follow. -/
def bundleFont (fontFamily : List Char) (options : BundleOptions)
    (root : List Char) (downloads : List (FontFile × Option (List Char)))
    (rel : List Char → List Char) (license : Option (List Char))
    (date : List Char) : ProductionBundle :=
  let fontDir := pathJoin (pathJoin root options.outputDir)
    (sanitizeFontName fontFamily)
  let bundle0 : ProductionBundle :=
    { fontFamily := fontFamily, strategy := options.strategy
      files := {}, code := {} }
  let bundle1 :=
    if options.strategy = .selfHosted || options.strategy = .both then
      generateSelfHostedBundle fontFamily options fontDir downloads rel bundle0
    else bundle0
  let bundle2 :=
    if options.strategy = .cdn || options.strategy = .both then
      generateCDNBundle fontFamily options bundle1
    else bundle1
  let bundle3 := generateFrameworkCode fontFamily options bundle2
  createLicenseFile fontFamily fontDir license date rel bundle3

end Bundler2

example : Bundler2.sanitizeFontName (chars "IBM Plex Mono") =
    chars "IBM-Plex-Mono" := by decide

example : Bundler2.sanitizeFontName (chars "a  b") = chars "a-b" := by decide

example : Bundler1.sanitizeName (chars "a  b") = chars "a--b" := by decide

/-! Claim theorems. -/

/-- Claim C1, counterexample: `parseFontFamily` does not strip only the
surrounding quote characters of a token — it deletes quote characters
anywhere in the token, so on the raw stack `a'b` the code yields `ab`
while the claimed procedure yields `a'b`. -/
theorem claim_C1_counterexample :
    parseFontFamily (chars "a'b") ≠ parseFontFamilySpec (chars "a'b") ∧
    parseFontFamily (chars "a'b") = [chars "ab"] ∧
    parseFontFamilySpec (chars "a'b") = [chars "a'b"] := by decide

/-- Claim C1 as amended: `parseFontFamily` splits on commas, trims each
token and deletes every quote character in it (not only surrounding
ones), drops case-insensitive denylist matches, and keeps at most the
first 3 remaining tokens; parsing the captured value of
`font-family: 'Inter', sans-serif;` yields exactly `Inter`, and a stack
of 5 custom names yields its first 3. -/
theorem claim_C1_amended :
    (∀ s, parseFontFamily s = parseFontFamilyAmended s) ∧
    parseFontFamily (chars "'Inter', sans-serif") = [chars "Inter"] ∧
    parseFontFamily (chars "Alpha, Beta, Gamma, Delta, Epsilon") =
      [chars "Alpha", chars "Beta", chars "Gamma"] ∧
    (∀ s, (parseFontFamily s).length ≤ 3) :=
  ⟨fun _ => rfl, by decide, by decide,
    fun s => List.length_take_le 3 _⟩

/-- Claim C2, counterexample: the detector neither normalizes the file
text nor stops the captured value at a closing brace — its pattern
captures `[^;]+`, so on `a{font-family:X} b` the code's captured value is
`X} b` while the claimed pipeline captures `X`. -/
theorem claim_C2_counterexample :
    detectCssValues (chars "a\x7bfont-family:X\x7d b") ≠
      detectCssValuesSpec (chars "a\x7bfont-family:X\x7d b") ∧
    detectCssValues (chars "a\x7bfont-family:X\x7d b") = [chars "X\x7d b"] ∧
    detectCssValuesSpec (chars "a\x7bfont-family:X\x7d b") = [chars "X"] := by
  decide

/-- Claim C2 as amended: each stylesheet's text is used as read, with no
normalization, and the global case-insensitive pattern whose captured
value is `[^;]+` is applied until exhausted, every value (after the
`font-family:` prefix) being parsed as a font stack: the value runs past
a closing brace to the next semicolon or the end of input, a NUL byte in
the value is preserved, and matching is global and case-insensitive. -/
theorem claim_C2_amended :
    detectCssValues (chars "a\x7bfont-family:X\x7d b") = [chars "X\x7d b"] ∧
    detectCssValues
      (chars "p\x7bfont-family: Foo;\x7d q\x7bFONT-FAMILY: Bar;\x7d") =
      [chars "Foo", chars "Bar"] ∧
    detectCssValues (chars "font-family: A\x00B;") = [chars "A\x00B"] ∧
    detectFromCssContent (chars "f.css") (chars "a\x7bfont-family:X\x7d b") =
      [{ name := chars "X\x7d b", source := .css,
         filePath := some (chars "f.css") }] := by decide

/-- Claim C5, counterexample: the variant selection is not a plain
intersection with the available set — when only `700` is available the
code also returns `bold`, a variant outside the available set. -/
theorem claim_C5_counterexample :
    getCommonVariants [chars "700"] ≠ getCommonVariantsSpec [chars "700"] ∧
    getCommonVariants [chars "700"] = [chars "700", chars "bold"] ∧
    ¬ ([chars "700"] : List (List Char)).contains (chars "bold") := by decide

/-- Claim C5 as amended: the policy returns the preferred variants in the
fixed order `regular, 400, 500, 600, 700, bold`, keeping a variant when
it is in the available set or when it is `bold` and `700` is in the
available set, capped at 3 entries. -/
theorem claim_C5_amended (availableVariants : List (List Char)) :
    getCommonVariants availableVariants =
      (preferredVariants.filter (commonVariantKept availableVariants)).take 3 ∧
    (getCommonVariants availableVariants).length ≤ 3 ∧
    (getCommonVariants availableVariants).Sublist preferredVariants := by
  refine ⟨?_, List.length_take_le 3 _, ?_⟩
  · unfold getCommonVariants
    congr 1
    apply List.filter_congr
    intro v _
    by_cases hv : v = chars "bold"
    · simp [commonVariantKept, hv]
    · simp [commonVariantKept, hv]
  · exact (List.take_sublist 3 _).trans (List.filter_sublist _)

/-- Claim C9: with an empty cache and a failed catalog-listing fetch,
`getAllFonts` returns the empty list and leaves the cache unpopulated,
so `searchFont` reports not-found for every queried name; a later call
with the still-empty cache re-runs the fetch and a success populates the
cache. -/
theorem claim_C9 :
    getAllFonts none .failure = ([], none) ∧
    (∀ fontName, searchFont fontName none .failure = (none, none)) ∧
    (∀ items, getAllFonts none (.success items) =
      (items.getD [], some (items.getD []))) :=
  ⟨rfl, fun _ => rfl, fun _ => rfl⟩

theorem dedupAux_sublist (seen : List (List Char)) (l : List DetectedFont) :
    (dedupAux seen l).Sublist l := by
  induction l generalizing seen with
  | nil => simp [dedupAux]
  | cons a l ih =>
    unfold dedupAux
    split
    · exact (ih seen).cons a
    · exact (ih _).cons₂ a

theorem dedupAux_countP (key : List Char) (seen : List (List Char))
    (l : List DetectedFont) :
    (dedupAux seen l).countP (fun f => dedupKey f == key) =
      if key ∈ seen then 0
      else if l.any (fun f => dedupKey f == key) then 1 else 0 := by
  induction l generalizing seen with
  | nil => simp [dedupAux]
  | cons a l ih =>
    unfold dedupAux
    split
    next hmem =>
      rw [ih seen]
      by_cases hk : key ∈ seen
      · simp [hk]
      · have hne : (dedupKey a == key) = false := by
          simp only [beq_eq_false_iff_ne]
          intro h
          exact hk (h ▸ hmem)
        simp [hk, hne]
    next hmem =>
      rw [List.countP_cons, ih (dedupKey a :: seen)]
      by_cases ha : dedupKey a = key
      · subst ha
        simp [hmem, List.mem_cons]
      · have hne : (dedupKey a == key) = false := by
          simp [beq_eq_false_iff_ne, ha]
        by_cases hk : key ∈ seen <;>
          simp [hk, hne, List.mem_cons, Ne.symm ha]

theorem dedupAux_first (seen : List (List Char)) (l : List DetectedFont) :
    ∀ f ∈ dedupAux seen l,
      dedupKey f ∉ seen ∧
      l.find? (fun g => dedupKey g == dedupKey f) = some f := by
  induction l generalizing seen with
  | nil => intro f hf; simp [dedupAux] at hf
  | cons a l ih =>
    intro f hf
    unfold dedupAux at hf
    split at hf
    next hmem =>
      obtain ⟨h1, h2⟩ := ih seen f hf
      have hne : (dedupKey a == dedupKey f) = false := by
        simp only [beq_eq_false_iff_ne]
        intro h
        exact h1 (h ▸ hmem)
      exact ⟨h1, by rw [List.find?_cons_of_neg _ (by simp [hne]), h2]⟩
    next hmem =>
      rcases List.mem_cons.mp hf with hf | hf
      · subst hf
        exact ⟨hmem, by rw [List.find?_cons_of_pos _ (by simp)]⟩
      · obtain ⟨h1, h2⟩ := ih _ f hf
        have hfa : dedupKey f ≠ dedupKey a := by
          intro h
          exact h1 (h ▸ List.mem_cons_self _ _)
        refine ⟨fun hs => h1 (List.mem_cons_of_mem _ hs), ?_⟩
        rw [List.find?_cons_of_neg _ (by simp [Ne.symm hfa]), h2]

/-- Claim C3: deduplication is case-insensitive on the name and
first-occurrence-wins — the result is a subsequence of the input, each
lower-cased name present in the input appears exactly once in the output
and is absent otherwise, and every output element is exactly the first
input element carrying its lower-cased name (with its source, path and
installed flag); later occurrences contribute nothing. -/
theorem claim_C3 (fonts : List DetectedFont) :
    (deduplicate fonts).Sublist fonts ∧
    (∀ key, (deduplicate fonts).countP (fun f => dedupKey f == key) =
      if fonts.any (fun f => dedupKey f == key) then 1 else 0) ∧
    (∀ f ∈ deduplicate fonts,
      fonts.find? (fun g => dedupKey g == dedupKey f) = some f) := by
  refine ⟨dedupAux_sublist [] fonts, fun key => ?_,
    fun f hf => (dedupAux_first [] fonts f hf).2⟩
  rw [show deduplicate fonts = dedupAux [] fonts from rfl, dedupAux_countP]
  simp

/-- A first detection of Inter, carrying a stylesheet attribution. -/
def interFirst : DetectedFont :=
  { name := chars "Inter", source := .css, filePath := some (chars "a.css") }

/-- A later detection of the same name in different case, carrying an
installed flag that deduplication drops. -/
def interSecond : DetectedFont :=
  { name := chars "INTER", source := .css, filePath := some (chars "b.css"),
    isInstalled := some true }

/-- A two-stylesheet scan result declaring Inter twice. -/
def sampleFonts : List DetectedFont :=
  [interFirst, interSecond,
   { name := chars "Lato", source := .vscodeSettings }]

/-- Witness for claim C3 at a concrete scan result with `Inter` declared
by two stylesheets in different case. -/
theorem claim_C3_witness :
    (deduplicate sampleFonts).Sublist sampleFonts ∧
    ((deduplicate sampleFonts).countP
      (fun f => dedupKey f == chars "inter") =
      if sampleFonts.any (fun f => dedupKey f == chars "inter") then 1
      else 0) ∧
    sampleFonts.find? (fun g => dedupKey g == dedupKey interFirst) =
      some interFirst :=
  ⟨(claim_C3 sampleFonts).1, (claim_C3 sampleFonts).2.1 (chars "inter"),
    (claim_C3 sampleFonts).2.2 interFirst (by decide)⟩

/-! Lemmas about `collapseRuns`, towards idempotence of
`sanitizeFontName` (claim C7). -/

/-- Whether no two adjacent characters both satisfy `p`. -/
def noAdjRun (p : Char → Bool) : List Char → Bool
  | [] => true
  | [_] => true
  | a :: b :: rest => !(p a && p b) && noAdjRun p (b :: rest)

theorem collapseRuns_cons_of_neg (p : Char → Bool) (rep : Char) (b : Char)
    (t : List Char) (hb : p b = false) :
    ∃ t2, collapseRuns p rep (b :: t) = b :: t2 := by
  cases t with
  | nil => exact ⟨[], by simp [collapseRuns, hb]⟩
  | cons c t2 => exact ⟨collapseRuns p rep (c :: t2), by simp [collapseRuns, hb]⟩

theorem noAdjRun_collapseRuns (p : Char → Bool) (rep : Char)
    (hrep : p rep = true) (l : List Char) :
    noAdjRun p (collapseRuns p rep l) = true := by
  induction l using collapseRuns.induct p rep with
  | case1 => simp [collapseRuns, noAdjRun]
  | case2 c => simp [collapseRuns, noAdjRun]
  | case3 a b rest hab ih => simpa [collapseRuns, hab] using ih
  | case4 a b rest hab ih =>
    rw [collapseRuns, if_neg hab]
    by_cases hpa : p a = true
    · have hpb : p b = false := by
        cases hb : p b
        · rfl
        · exfalso
          apply hab
          rw [hpa, hb]
          rfl
      obtain ⟨t2, ht2⟩ := collapseRuns_cons_of_neg p rep b rest hpb
      rw [ht2] at ih ⊢
      simpa [noAdjRun, hpa, hpb] using ih
    · cases hcol : collapseRuns p rep (b :: rest) with
      | nil => simp [noAdjRun]
      | cons y t2 =>
        rw [hcol] at ih
        simpa [noAdjRun, hpa] using ih

theorem collapseRuns_eq_self (p : Char → Bool) (rep : Char)
    (hp : ∀ c, p c = true → c = rep) (l : List Char)
    (h : noAdjRun p l = true) : collapseRuns p rep l = l := by
  induction l using collapseRuns.induct p rep with
  | case1 => rfl
  | case2 c =>
    by_cases hc : p c = true
    · simp [collapseRuns, hc, hp c hc]
    · simp [collapseRuns, hc]
  | case3 a b rest hab ih =>
    rw [noAdjRun] at h
    simp only [hab] at h
    simp at h
  | case4 a b rest hab ih =>
    rw [noAdjRun] at h
    have h2 := (Bool.and_eq_true _ _).mp h
    rw [collapseRuns, if_neg hab, ih h2.2]
    by_cases hpa : p a = true
    · rw [if_pos hpa, hp a hpa]
    · rw [if_neg hpa]

theorem collapseRuns_mem (p : Char → Bool) (rep : Char) (l : List Char) :
    ∀ c ∈ collapseRuns p rep l, c ∈ l ∨ c = rep := by
  induction l using collapseRuns.induct p rep with
  | case1 => intro c hc; simp [collapseRuns] at hc
  | case2 d =>
    intro c hc
    simp only [collapseRuns, List.mem_singleton] at hc
    by_cases hd : p d = true
    · right; simpa [hd] using hc
    · left; simp [hd] at hc; simp [hc]
  | case3 a b rest hab ih =>
    intro c hc
    rw [collapseRuns, if_pos hab] at hc
    rcases ih c hc with h | h
    · exact Or.inl (List.mem_cons_of_mem a h)
    · exact Or.inr h
  | case4 a b rest hab ih =>
    intro c hc
    rw [collapseRuns, if_neg hab] at hc
    rcases List.mem_cons.mp hc with h | h
    · by_cases hpa : p a = true
      · right; simpa [hpa] using h
      · left; simp [hpa] at h; simp [h]
    · rcases ih c h with h2 | h2
      · exact Or.inl (List.mem_cons_of_mem a h2)
      · exact Or.inr h2

/-- The character map of `sanitizeFontName`: replace every
non-alphanumeric character with a hyphen. -/
theorem sanitize_char_fixed (c : Char)
    (h : c ∈ Bundler2.sanitizeFontName s) :
    (if c.isAlphanum then c else '-') = c := by
  rcases collapseRuns_mem _ '-' _ c h with h2 | h2
  · rcases List.mem_map.mp h2 with ⟨d, _, hd⟩
    subst hd
    by_cases hda : d.isAlphanum <;> simp [hda]
  · subst h2; rfl

/-- Claim C7: sanitization replaces every non-alphanumeric character with
a hyphen and collapses runs of hyphens; `IBM Plex Mono` becomes
`IBM-Plex-Mono`, and sanitizing an already-sanitized name returns it
unchanged. -/
theorem claim_C7 :
    Bundler2.sanitizeFontName (chars "IBM Plex Mono") =
      chars "IBM-Plex-Mono" ∧
    ∀ s, Bundler2.sanitizeFontName (Bundler2.sanitizeFontName s) =
      Bundler2.sanitizeFontName s := by
  refine ⟨by decide, fun s => ?_⟩
  have hmap : (Bundler2.sanitizeFontName s).map
      (fun c => if c.isAlphanum then c else '-') =
      Bundler2.sanitizeFontName s := by
    rw [List.map_congr_left (fun c hc => sanitize_char_fixed c hc),
      List.map_id']
  have hnoadj : noAdjRun (fun c => c = '-')
      (Bundler2.sanitizeFontName s) = true :=
    noAdjRun_collapseRuns _ '-' (by simp) _
  rw [Bundler2.sanitizeFontName, hmap]
  exact collapseRuns_eq_self _ '-' (fun c hc => by simpa using hc) _ hnoadj

theorem createLicenseFile_fontFiles (fontFamily fontDir : List Char)
    (license : Option (List Char)) (date : List Char)
    (rel : List Char → List Char) (bundle : Bundler2.ProductionBundle) :
    (Bundler2.createLicenseFile fontFamily fontDir license date rel
      bundle).files.fontFiles = bundle.files.fontFiles := by
  cases license <;> rfl

theorem generateFrameworkCode_fontFiles (fontFamily : List Char)
    (options : Bundler2.BundleOptions) (bundle : Bundler2.ProductionBundle) :
    (Bundler2.generateFrameworkCode fontFamily options
      bundle).files.fontFiles = bundle.files.fontFiles := by
  unfold Bundler2.generateFrameworkCode
  split <;> rfl

theorem generateCDNBundle_fontFiles (fontFamily : List Char)
    (options : Bundler2.BundleOptions) (bundle : Bundler2.ProductionBundle) :
    (Bundler2.generateCDNBundle fontFamily options bundle).files.fontFiles =
      bundle.files.fontFiles := rfl

theorem bundleFont_fontFiles (fontFamily : List Char)
    (options : Bundler2.BundleOptions) (root : List Char)
    (downloads : List (FontFile × Option (List Char)))
    (rel : List Char → List Char) (license : Option (List Char))
    (date : List Char) :
    (Bundler2.bundleFont fontFamily options root downloads rel license
      date).files.fontFiles =
      if options.strategy = .selfHosted || options.strategy = .both then
        downloads.filterMap (fun d => d.2.map rel)
      else [] := by
  unfold Bundler2.bundleFont
  rw [createLicenseFile_fontFiles, generateFrameworkCode_fontFiles]
  split
  · rw [generateCDNBundle_fontFiles]
    split
    · simp [Bundler2.generateSelfHostedBundle]
    · rfl
  · split
    · simp [Bundler2.generateSelfHostedBundle]
    · rfl

/-- Claim C4: the bundle's written font-file list is non-empty only when
the strategy included self-hosting and at least one variant download
succeeded. -/
theorem claim_C4 (fontFamily : List Char) (options : Bundler2.BundleOptions)
    (root : List Char) (downloads : List (FontFile × Option (List Char)))
    (rel : List Char → List Char) (license : Option (List Char))
    (date : List Char)
    (hne : (Bundler2.bundleFont fontFamily options root downloads rel
      license date).files.fontFiles ≠ []) :
    (options.strategy = .selfHosted ∨ options.strategy = .both) ∧
    ∃ d ∈ downloads, (d.2).isSome = true := by
  rw [bundleFont_fontFiles] at hne
  split at hne
  next hcond =>
    refine ⟨by simpa using hcond, ?_⟩
    by_contra hex
    push_neg at hex
    apply hne
    apply List.filterMap_eq_nil_iff.mpr
    intro d hd
    have hnot := hex d hd
    cases h2 : d.2 with
    | none => rfl
    | some p => rw [h2] at hnot; simp at hnot
  next => exact absurd rfl hne

/-- A descriptor as `getFontFiles` returns it, for the witnesses. -/
def sampleFontFile : FontFile :=
  { family := chars "Roboto", variant := chars "regular",
    url := chars "https://fonts.gstatic.com/r.woff2", format := .woff2 }

/-- A self-hosted bundling configuration, for the C4 witness. -/
def sampleOptions : Bundler2.BundleOptions :=
  { strategy := .selfHosted, variants := [chars "regular"],
    outputDir := chars "assets/fonts", framework := .vanilla,
    includePreload := false }

/-- Witness for claim C4 at a self-hosted run with one successful
download. -/
theorem claim_C4_witness :
    (sampleOptions.strategy = .selfHosted ∨
      sampleOptions.strategy = .both) ∧
    ∃ d ∈ [(sampleFontFile,
      some (chars "/w/assets/fonts/Roboto/Roboto-regular.woff2"))],
      (d.2).isSome = true :=
  claim_C4 (chars "Roboto") sampleOptions (chars "/w")
    [(sampleFontFile,
      some (chars "/w/assets/fonts/Roboto/Roboto-regular.woff2"))]
    id none (chars "2026-01-01") (by rw [bundleFont_fontFiles]; decide)

/-- Claim C6: `installFont` always returns a structured result — a typed
not-found failure when the family is absent from the catalog, a failure
with no installed files when every variant download fails, and success
only when at least one file was downloaded and written. -/
theorem claim_C6 (fontFamily : List Char) (g : GoogleFont)
    (fontFiles : List FontFile) (download : FontFile → Option (List Char)) :
    installFont fontFamily none fontFiles download =
      ⟨false, [], some (installNotFoundMsg fontFamily)⟩ ∧
    (fontFiles.filterMap download = [] →
      (installFont fontFamily (some g) fontFiles download).success = false ∧
      (installFont fontFamily (some g) fontFiles download).installedFiles =
        []) ∧
    (∀ searchResult,
      (installFont fontFamily searchResult fontFiles download).success =
        true →
      (installFont fontFamily searchResult fontFiles
        download).installedFiles ≠ []) := by
  refine ⟨rfl, fun hfail => ?_, fun searchResult hsucc => ?_⟩
  · unfold installFont
    by_cases hlen : fontFiles.length = 0
    · simp [hlen]
    · rw [if_neg hlen]
      simp [hfail]
  · cases searchResult with
    | none => simp [installFont] at hsucc
    | some g2 =>
      unfold installFont at hsucc ⊢
      by_cases hlen : fontFiles.length = 0
      · rw [if_pos hlen] at hsucc
        simp at hsucc
      · rw [if_neg hlen] at hsucc ⊢
        by_cases hfm : (fontFiles.filterMap download).length = 0
        · simp only [hfm, if_pos] at hsucc
          simp at hsucc
        · rw [if_neg hfm] at hsucc ⊢
          intro h
          have h2 : fontFiles.filterMap download = [] := by simpa using h
          exact hfm (by rw [h2]; rfl)

/-- A catalog entry for the C6 witness. -/
def sampleCatalogFont : GoogleFont :=
  { family := chars "Inter", variants := [chars "regular"],
    subsets := [chars "latin"],
    files := [(chars "regular", chars "https://fonts.gstatic.com/i.ttf")] }

/-- Witness for claim C6: a catalog miss, an all-downloads-failed run and
a successful run, each at concrete inputs. -/
theorem claim_C6_witness :
    installFont (chars "Inter") none [sampleFontFile] (fun _ => none) =
      ⟨false, [], some (installNotFoundMsg (chars "Inter"))⟩ ∧
    ((installFont (chars "Inter") (some sampleCatalogFont) [sampleFontFile]
        (fun _ => none)).success = false ∧
      (installFont (chars "Inter") (some sampleCatalogFont) [sampleFontFile]
        (fun _ => none)).installedFiles = []) ∧
    (installFont (chars "Inter") (some sampleCatalogFont) [sampleFontFile]
      (fun _ => some (chars "f.woff2"))).installedFiles ≠ [] :=
  ⟨(claim_C6 (chars "Inter") sampleCatalogFont [sampleFontFile]
      (fun _ => none)).1,
    (claim_C6 (chars "Inter") sampleCatalogFont [sampleFontFile]
      (fun _ => none)).2.1 (by decide),
    (claim_C6 (chars "Inter") sampleCatalogFont [sampleFontFile]
      (fun _ => some (chars "f.woff2"))).2.2 (some sampleCatalogFont)
      (by decide)⟩

/-- Claim C8: when more than 20 stylesheet files match (here 25), only
the first 20 in listing order are inspected — the scan result ignores the
contents of every later file and equals the scan of the first 20 alone. -/
theorem claim_C8 (cssFiles : List (List Char))
    (read read2 : List Char → List Char)
    (hlen : cssFiles.length = 25)
    (hagree : ∀ f ∈ cssFiles.take 20, read f = read2 f) :
    detectFromCssFiles read cssFiles = detectFromCssFiles read2 cssFiles ∧
    detectFromCssFiles read cssFiles =
      detectFromCssFiles read (cssFiles.take 20) ∧
    (cssFiles.take 20).length = 20 := by
  refine ⟨?_, ?_, by rw [List.length_take, hlen]; decide⟩
  · unfold detectFromCssFiles
    congr 1
    exact List.map_congr_left fun f hf => by rw [hagree f hf]
  · unfold detectFromCssFiles
    simp [List.take_take]

/-- 25 distinct stylesheet paths, for the C8 witness. -/
def sampleCssFiles : List (List Char) :=
  (List.range 25).map (fun n => [Char.ofNat (65 + n)])

/-- A read oracle returning empty content everywhere. -/
def sampleRead : List Char → List Char := fun _ => []

/-- A read oracle that differs from `sampleRead` only on the 25th path. -/
def sampleRead2 : List Char → List Char :=
  fun p => if p = [Char.ofNat 89] then chars "p\x7bfont-family: Foo;\x7d"
    else []

/-- Witness for claim C8 at a 25-file listing whose 25th file's content
differs between the two read oracles. -/
theorem claim_C8_witness :
    detectFromCssFiles sampleRead sampleCssFiles =
      detectFromCssFiles sampleRead2 sampleCssFiles ∧
    detectFromCssFiles sampleRead sampleCssFiles =
      detectFromCssFiles sampleRead (sampleCssFiles.take 20) ∧
    (sampleCssFiles.take 20).length = 20 :=
  claim_C8 sampleCssFiles sampleRead sampleRead2 (by decide) (by decide)

/-! Substring infrastructure and the utility-rule patterns for C10. -/

theorem containsSeq_append_left (a : List Char) {hay pat : List Char}
    (h : containsSeq hay pat) : containsSeq (a ++ hay) pat := by
  obtain ⟨pre, post, rfl⟩ := h
  exact ⟨a ++ pre, post, (List.append_assoc a pre _).symm⟩

theorem containsSeq_self (pat post : List Char) :
    containsSeq (pat ++ post) pat := ⟨[], post, rfl⟩

/-- The utility-class text of the first bundler service, without its
trailing newline: the class `.font-slug` bound to the family and the
sans-serif fallback. -/
def fontClassPattern (fontFamily slug : List Char) : List Char :=
  chars ".font-" ++ (slug ++ (chars " \x7b font-family: '" ++
    (fontFamily ++ chars "', sans-serif; \x7d")))

/-- The custom-property text both services emit: `--font-slug` bound to
the family and the sans-serif fallback. -/
def rootVarPattern (fontFamily slug : List Char) : List Char :=
  chars "--font-" ++ (slug ++ (chars ": '" ++
    (fontFamily ++ chars "', sans-serif;")))

/-- The utility-class text of the second bundler service, up to the
closing of its declaration block. -/
def fontClassPattern2 (fontFamily slug : List Char) : List Char :=
  chars ".font-" ++ (slug ++ (chars " \x7b\n  font-family: '" ++
    (fontFamily ++ chars "', sans-serif;")))

theorem fontClassRule_split (fontFamily slug : List Char) :
    Bundler1.fontClassRule fontFamily slug =
      fontClassPattern fontFamily slug ++ chars "\n" := by
  unfold Bundler1.fontClassRule fontClassPattern
  rw [show chars "', sans-serif; \x7d\n" =
    chars "', sans-serif; \x7d" ++ chars "\n" from rfl]
  simp [List.append_assoc]

theorem rootVarRule_split (fontFamily slug : List Char) :
    Bundler1.rootVarRule fontFamily slug =
      chars ":root \x7b " ++ (rootVarPattern fontFamily slug ++
        chars " \x7d\n") := by
  unfold Bundler1.rootVarRule rootVarPattern
  rw [show chars ":root \x7b --font-" =
      chars ":root \x7b " ++ chars "--font-" from rfl,
    show chars "', sans-serif; \x7d\n" =
      chars "', sans-serif;" ++ chars " \x7d\n" from rfl]
  simp [List.append_assoc]

theorem fontClassRule2_split (fontFamily slug : List Char) :
    Bundler2.fontClassRule fontFamily slug =
      fontClassPattern2 fontFamily slug ++ chars "\n\x7d\n\n" := by
  unfold Bundler2.fontClassRule fontClassPattern2
  rw [show chars "', sans-serif;\n\x7d\n\n" =
    chars "', sans-serif;" ++ chars "\n\x7d\n\n" from rfl]
  simp [List.append_assoc]

theorem rootVarRule2_split (fontFamily slug : List Char) :
    Bundler2.rootVarRule fontFamily slug =
      chars ":root \x7b\n  " ++ (rootVarPattern fontFamily slug ++
        chars "\n\x7d\n") := by
  unfold Bundler2.rootVarRule rootVarPattern
  rw [show chars ":root \x7b\n  --font-" =
      chars ":root \x7b\n  " ++ chars "--font-" from rfl,
    show chars "', sans-serif;\n\x7d\n" =
      chars "', sans-serif;" ++ chars "\n\x7d\n" from rfl]
  simp [List.append_assoc]

theorem cssContent_contains_fontClass (fontFamily : List Char)
    (variants : List (List Char)) (options : Bundler1.BundleOptions)
    (downloads : List (FontFile × Option (List Char)))
    (base : List Char → List Char) :
    containsSeq (Bundler1.cssContent fontFamily variants options downloads base)
      (fontClassPattern fontFamily
        (toLowerList (Bundler1.sanitizeName fontFamily))) := by
  unfold Bundler1.cssContent
  apply containsSeq_append_left
  apply containsSeq_append_left
  apply containsSeq_append_left
  apply containsSeq_append_left
  rw [fontClassRule_split, List.append_assoc]
  exact containsSeq_self _ _

theorem cssContent_contains_rootVar (fontFamily : List Char)
    (variants : List (List Char)) (options : Bundler1.BundleOptions)
    (downloads : List (FontFile × Option (List Char)))
    (base : List Char → List Char) :
    containsSeq (Bundler1.cssContent fontFamily variants options downloads base)
      (rootVarPattern fontFamily
        (toLowerList (Bundler1.sanitizeName fontFamily))) := by
  unfold Bundler1.cssContent
  apply containsSeq_append_left
  apply containsSeq_append_left
  apply containsSeq_append_left
  apply containsSeq_append_left
  apply containsSeq_append_left
  rw [rootVarRule_split]
  apply containsSeq_append_left
  exact containsSeq_self _ _

theorem fontFaceCSS_contains_fontClass (fontFamily : List Char)
    (fontFiles : List FontFile) (options : Bundler2.BundleOptions) :
    containsSeq (Bundler2.generateFontFaceCSS fontFamily fontFiles options)
      (fontClassPattern2 fontFamily
        (toLowerList (Bundler2.sanitizeFontName fontFamily))) := by
  unfold Bundler2.generateFontFaceCSS
  apply containsSeq_append_left
  apply containsSeq_append_left
  apply containsSeq_append_left
  rw [fontClassRule2_split, List.append_assoc]
  exact containsSeq_self _ _

theorem fontFaceCSS_contains_rootVar (fontFamily : List Char)
    (fontFiles : List FontFile) (options : Bundler2.BundleOptions) :
    containsSeq (Bundler2.generateFontFaceCSS fontFamily fontFiles options)
      (rootVarPattern fontFamily
        (toLowerList (Bundler2.sanitizeFontName fontFamily))) := by
  unfold Bundler2.generateFontFaceCSS
  apply containsSeq_append_left
  apply containsSeq_append_left
  apply containsSeq_append_left
  apply containsSeq_append_left
  rw [rootVarRule2_split]
  apply containsSeq_append_left
  exact containsSeq_self _ _

/-- Claim C10: for every bundled font, whatever the strategy and even
with zero successful downloads, the per-font CSS content is produced and
written, and it contains the `.font-slug` utility class and the
`--font-slug` custom property, both bound to the quoted family with the
sans-serif fallback; `generateFontFaceCSS` of the second service carries
the same two rules. -/
theorem claim_C10 (fontFamily : List Char) (variants : List (List Char))
    (options : Bundler1.BundleOptions) (outputPath : List Char)
    (downloads : List (FontFile × Option (List Char)))
    (base : List Char → List Char) :
    ((Bundler1.bundleFont fontFamily variants options outputPath downloads
        base).cssFile,
      (Bundler1.bundleFont fontFamily variants options outputPath downloads
        base).cssContent) ∈
      (Bundler1.bundleFont fontFamily variants options outputPath downloads
        base).written ∧
    containsSeq (Bundler1.bundleFont fontFamily variants options outputPath
        downloads base).cssContent
      (fontClassPattern fontFamily
        (toLowerList (Bundler1.sanitizeName fontFamily))) ∧
    containsSeq (Bundler1.bundleFont fontFamily variants options outputPath
        downloads base).cssContent
      (rootVarPattern fontFamily
        (toLowerList (Bundler1.sanitizeName fontFamily))) ∧
    ∀ fontFiles (options2 : Bundler2.BundleOptions),
      containsSeq (Bundler2.generateFontFaceCSS fontFamily fontFiles options2)
        (fontClassPattern2 fontFamily
          (toLowerList (Bundler2.sanitizeFontName fontFamily))) ∧
      containsSeq (Bundler2.generateFontFaceCSS fontFamily fontFiles options2)
        (rootVarPattern fontFamily
          (toLowerList (Bundler2.sanitizeFontName fontFamily))) := by
  refine ⟨?_, cssContent_contains_fontClass fontFamily variants options
      downloads base,
    cssContent_contains_rootVar fontFamily variants options downloads base,
    fun fontFiles options2 =>
      ⟨fontFaceCSS_contains_fontClass fontFamily fontFiles options2,
        fontFaceCSS_contains_rootVar fontFamily fontFiles options2⟩⟩
  show _ ∈ (Bundler1.bundleFont fontFamily variants options outputPath
    downloads base).written
  unfold Bundler1.bundleFont
  exact List.mem_append_left _ (List.mem_singleton_self _)

end Fontify
